import Mathlib

/-!
# Verification of the noxrunner local sandbox core

Shallow embedding, in Lean 4, of the security-critical core of the
`noxrunner` local sandbox backend:

* `LocalSandboxBackend._validate_command` (src/noxrunner/local_sandbox.py),
* `PathSanitizer.sanitize` / `sanitize_filename`
  (src/noxrunner/security/path_sanitizer.py),
* `TarHandler.create_tar` / `_is_safe_member` / `extract_tar`
  (src/noxrunner/fileops/tar_handler.py),
* the session registry operations (`create_sandbox`, `touch`,
  `delete_sandbox`, `exec`) of `LocalSandboxBackend`.

Modelling conventions:

* Python strings are Lean `String`s restricted to ASCII content; the
  Python character predicates (`str.isalnum`, `str.strip`'s whitespace
  set, `str.lower`) are embedded for the ASCII range.
* Filesystem paths are modelled lexically, as lists of path segments of
  an absolute POSIX path (`SPath`); `Path.resolve()` is modelled as
  lexical normalisation, i.e. the filesystem is assumed symlink-free.
* Fallible filesystem operations return `Except`, mirroring Python
  exceptions; total Python functions become total Lean functions.
-/

namespace Noxrunner

/-! ## Embedded Python string primitives (ASCII fragment) -/

/-- Python's default `str.strip()` whitespace set, ASCII fragment. -/
def pyIsWs (c : Char) : Bool :=
  c = ' ' || c = '\t' || c = '\n' || c = '\r' || c = '\x0b' || c = '\x0c'

/-- ASCII lower-casing of one character, as Python `str.lower` acts on ASCII. -/
def pyLowerChar (c : Char) : Char :=
  if 'A' ≤ c && c ≤ 'Z' then Char.ofNat (c.toNat + 32) else c

/-- Python `s.lower()` on ASCII strings. -/
def pyLower (s : String) : String :=
  String.mk (s.toList.map pyLowerChar)

/-- Python `c.isalnum()` on ASCII characters. -/
def pyIsAlnum (c : Char) : Bool :=
  ('a' ≤ c && c ≤ 'z') || ('A' ≤ c && c ≤ 'Z') || ('0' ≤ c && c ≤ '9')

/-- Split a character list on a separator character.  Mirrors Python
`str.split(sep)`: the empty input yields `[""]`, and consecutive
separators yield empty pieces. -/
def splitCharList (sep : Char) : List Char → List (List Char)
  | [] => [[]]
  | c :: rest =>
    if c = sep then
      [] :: splitCharList sep rest
    else
      match splitCharList sep rest with
      | [] => [[c]]
      | piece :: pieces => (c :: piece) :: pieces

/-- Python `s.split(sep)` for a one-character separator. -/
def pySplit (sep : Char) (s : String) : List String :=
  (splitCharList sep s.toList).map String.mk

/-- Python `s.replace(old, new)` for one-character `old`/`new`. -/
def pyReplaceChar (old new : Char) (s : String) : String :=
  String.mk (s.toList.map (fun c => if c = old then new else c))

/-- Python `s.replace(old, "")` for a one-character `old`: delete every
occurrence of the character. -/
def pyRemoveChar (old : Char) (s : String) : String :=
  String.mk (s.toList.filter (fun c => c ≠ old))

/-- Python `s.strip()` (ASCII whitespace). -/
def pyStrip (s : String) : String :=
  String.mk (((s.toList.dropWhile pyIsWs).reverse.dropWhile pyIsWs).reverse)

/-- Python `".." in s`: does the string contain two adjacent dots? -/
def containsDotDot : List Char → Bool
  | '.' :: '.' :: _ => true
  | _ :: rest => containsDotDot rest
  | [] => false

/-- Python `".." in s` at the `String` level. -/
def pyHasDotDot (s : String) : Bool :=
  containsDotDot s.toList

/-! ## Command validation

`LocalSandboxBackend._ALLOWED_COMMANDS` and `_BLOCKED_COMMANDS`
(src/noxrunner/local_sandbox.py lines 34-106), and
`_validate_command` (lines 157-174). -/

/-- `LocalSandboxBackend._ALLOWED_COMMANDS`. -/
def ALLOWED_COMMANDS : List String :=
  ["echo", "cat", "ls", "pwd", "head", "tail", "grep", "wc", "sort",
   "python", "python3", "python2", "node", "bash", "sh", "zsh", "test",
   "[", "true", "false", "which", "type", "env", "printenv", "mkdir",
   "touch", "cp", "mv", "ln", "readlink", "stat", "file", "find",
   "xargs", "sed", "awk", "cut", "tr", "uniq", "diff", "cmp", "tar",
   "gzip", "gunzip", "zip", "unzip"]

/-- `LocalSandboxBackend._BLOCKED_COMMANDS`. -/
def BLOCKED_COMMANDS : List String :=
  ["rm", "rmdir", "unlink", "del", "format", "mkfs", "dd", "fdisk",
   "shutdown", "reboot", "halt", "poweroff", "init", "killall", "sudo",
   "su", "chmod", "chown", "chgrp", "mount", "umount"]

/-- `LocalSandboxBackend._validate_command` (local_sandbox.py 157-174):
empty vector is invalid, a first element whose lower-casing is in the
blocked set is invalid, and *everything else is accepted* (the allowed
set is never consulted by this function). -/
def validateCommand (cmd : List String) : Bool :=
  match cmd with
  | [] => false
  | c :: _ =>
    let command := pyLower c
    if BLOCKED_COMMANDS.contains command then false
    else true

/-- The reference command policy stated by the spec (§4.2): non-empty,
first element lower-cased not in the deny-set *and* in the allow-set
(default-deny).  Kept separate from `validateCommand`, which embeds the
source, so the two can be compared. -/
def specValidate (cmd : List String) : Bool :=
  match cmd with
  | [] => false
  | c :: _ =>
    let command := pyLower c
    if BLOCKED_COMMANDS.contains command then false
    else ALLOWED_COMMANDS.contains command

/-! ## Lexical path model

An absolute POSIX path is a list of segments (`/a/b` is `["a", "b"]`).
`Path.resolve()` is modelled lexically (assumption: no symlinks): empty
and `.` segments disappear, `..` pops the previous segment (and is a
no-op at the root, as on POSIX). -/

/-- Absolute filesystem path, as the list of its segments. -/
abbrev SPath := List String

/-- Lexical `Path.resolve()` over raw segments. -/
def lexNorm (p : SPath) : SPath :=
  p.foldl
    (fun acc s =>
      if s = "" ∨ s = "." then acc
      else if s = ".." then acc.dropLast
      else acc ++ [s]) []

/-- `os.path.isabs` on POSIX: the string starts with a slash. -/
def pyIsAbs (s : String) : Bool :=
  match s.toList with
  | '/' :: _ => true
  | _ => false

/-- All prefixes of a path, shortest first, the path itself included. -/
def pathPrefixes : SPath → List SPath
  | [] => [[]]
  | s :: rest => [] :: (pathPrefixes rest).map (s :: ·)

/-! ## PathSanitizer

`PathSanitizer.sanitize` (src/noxrunner/security/path_sanitizer.py
20-103), `ensure_within_sandbox` (105-120) and `sanitize_filename`
(122-133).  `p.relative_to(q)` on two absolute pathlib paths succeeds
exactly when `q`'s segments are a prefix of `p`'s, which is
`List.isPrefixOf` here. -/

/-- The relative-branch loop of `PathSanitizer.sanitize`
(path_sanitizer.py 63-82): walk the slash-split segments, skip `.` and
empty ones, and bail out (`none`, i.e. "return workspace") on `..` or on
a segment that contains `..` and reduces to nothing once its dots and
slashes are removed and whitespace stripped; every other segment is kept
verbatim. -/
def collectParts : List String → Option (List String)
  | [] => some []
  | part :: rest =>
    if part = "." ∨ part = "" then collectParts rest
    else if part = ".." then none
    else if pyHasDotDot part then
      if pyStrip (pyRemoveChar '/' (pyRemoveChar '.' part)) = "" then none
      else (collectParts rest).map (part :: ·)
    else (collectParts rest).map (part :: ·)

/-- `PathSanitizer.sanitize(path, sandbox_path, workspace_name)`.
`sandboxResolved` stands for `sandbox_path.resolve()`. -/
def sanitize (path : String) (sandboxResolved : SPath) (workspaceName : String) : SPath :=
  let workspace := sandboxResolved ++ [workspaceName]
  if pyIsAbs path then
    let resolved := lexNorm (pySplit '/' path)
    if sandboxResolved.isPrefixOf resolved then resolved else workspace
  else
    match collectParts (pySplit '/' (pyReplaceChar '\\' '/' path)) with
    | none => workspace
    | some [] => workspace
    | some normalizedParts =>
      let resolved := workspace ++ normalizedParts
      if sandboxResolved.isPrefixOf resolved then resolved else workspace

/-- `PathSanitizer.ensure_within_sandbox(path, sandbox_path)`. -/
def ensureWithinSandbox (path : SPath) (sandboxPath : SPath) : Bool :=
  (lexNorm sandboxPath).isPrefixOf (lexNorm path)

/-- `PurePosixPath(filename).name`: pathlib parses a path by dropping
empty and `.` segments (keeping `..`), and `.name` is the last parsed
segment, or the empty string when there is none. -/
def pathlibName (filename : String) : String :=
  (((pySplit '/' filename).filter (fun s => ¬(s = "" ∨ s = "."))).getLast?).getD ""

/-- `PathSanitizer.sanitize_filename(filename)` (path_sanitizer.py
122-133): `Path(filename).name`. -/
def sanitizeFilename (filename : String) : String :=
  pathlibName filename

/-! ## Session registry

`LocalSandboxBackend._sandboxes` is a Python dict from session id to a
record dict; embedded as an association list with dict semantics
(assignment replaces in place, `del` removes the entry).  Timestamps are
naturals (`datetime.now` supplied as an explicit `now` parameter). -/

/-- One value of `LocalSandboxBackend._sandboxes`. -/
structure SandboxRecord where
  path : SPath
  createdAt : Nat
  expiresAt : Nat
  ttlSeconds : Nat
deriving DecidableEq

/-- The `_sandboxes` dict. -/
abbrev Registry := List (String × SandboxRecord)

/-- Python `dict` lookup `self._sandboxes[session_id]` /
`session_id in self._sandboxes`. -/
def regLookup : Registry → String → Option SandboxRecord
  | [], _ => none
  | e :: rest, sid => if e.1 = sid then some e.2 else regLookup rest sid

/-- Python `dict` assignment `self._sandboxes[session_id] = ...`:
replace in place, or append a new entry. -/
def regSet : Registry → String → SandboxRecord → Registry
  | [], sid, r => [(sid, r)]
  | e :: rest, sid, r => if e.1 = sid then (sid, r) :: rest else e :: regSet rest sid r

/-- Python `del self._sandboxes[session_id]` (id known present; removes
the entry when present, no-op otherwise). -/
def regDelete : Registry → String → Registry
  | [], _ => []
  | e :: rest, sid => if e.1 = sid then rest else e :: regDelete rest sid

/-- `LocalSandboxBackend._get_sandbox_path` (local_sandbox.py 138-144):
keep only alphanumeric, dash and underscore characters of the session
id, defaulting to `"default"` when nothing is left. -/
def safeId (sessionId : String) : String :=
  let kept := String.mk (sessionId.toList.filter (fun c => pyIsAlnum c || c = '-' || c = '_'))
  if kept = "" then "default" else kept

/-- The sandbox root directory for a session:
`base_dir / f"noxrunner_sandbox_{safe_id}"`. -/
def getSandboxPath (baseDir : SPath) (sessionId : String) : SPath :=
  baseDir ++ ["noxrunner_sandbox_" ++ safeId sessionId]

/-- `LocalSandboxBackend.create_sandbox` (local_sandbox.py 219-252),
registry part: store path, creation time, expiry `now + ttl` and the
ttl under the session id (the directory part is modelled where the
filesystem matters, see `BackendFsState`). -/
def createSandbox (baseDir : SPath) (now : Nat) (sessionId : String) (ttlSeconds : Nat)
    (reg : Registry) : Registry :=
  regSet reg sessionId
    { path := getSandboxPath baseDir sessionId
      createdAt := now
      expiresAt := now + ttlSeconds
      ttlSeconds := ttlSeconds }

/-- `LocalSandboxBackend.touch` (local_sandbox.py 254-264): create with
the default ttl 900 when unknown, else recompute the expiry from the
stored ttl. -/
def touchReg (baseDir : SPath) (now : Nat) (sessionId : String) (reg : Registry) : Registry :=
  match regLookup reg sessionId with
  | none => createSandbox baseDir now sessionId 900 reg
  | some r =>
    regSet reg sessionId { r with expiresAt := now + r.ttlSeconds }

/-- The registry-mutating operations of the backend, for stating
invariants over every operation sequence. -/
inductive RegOp where
  | create (now : Nat) (sid : String) (ttl : Nat)
  | touch (now : Nat) (sid : String)
  | delete (sid : String)

/-- Apply one registry operation. -/
def applyRegOp (baseDir : SPath) (reg : Registry) : RegOp → Registry
  | .create now sid ttl => createSandbox baseDir now sid ttl reg
  | .touch now sid => touchReg baseDir now sid reg
  | .delete sid => regDelete reg sid

/-- Run a sequence of registry operations from the empty registry. -/
def runRegOps (baseDir : SPath) (ops : List RegOp) : Registry :=
  ops.foldl (applyRegOp baseDir) []

/-! ## Delete with its backing directory tree

`LocalSandboxBackend.delete_sandbox` (local_sandbox.py 439-456)
additionally removes the whole directory tree under the record's path
(`shutil.rmtree`); the filesystem is abstracted as the list of existing
node paths. -/

/-- Registry plus the set of existing filesystem nodes. -/
structure BackendFsState where
  reg : Registry
  tree : List SPath
deriving DecidableEq

/-- `LocalSandboxBackend.delete_sandbox`: unknown id returns `False`;
otherwise remove the whole directory tree of the record (every node it
is a prefix of) and the registry entry, and return `True`. -/
def deleteSandbox (sessionId : String) (st : BackendFsState) : Bool × BackendFsState :=
  match regLookup st.reg sessionId with
  | none => (false, st)
  | some r =>
    (true,
      { reg := regDelete st.reg sessionId
        tree := st.tree.filter (fun p => !(r.path.isPrefixOf p)) })

/-- The registry's structural invariant: session ids are unique keys and
every stored record's path is the one derived from its session id. -/
def RegInv (baseDir : SPath) (reg : Registry) : Prop :=
  (reg.map Prod.fst).Nodup ∧ ∀ e ∈ reg, e.2.path = getSandboxPath baseDir e.1

/-! ## Command execution

`LocalSandboxBackend.exec` (local_sandbox.py 266-354).  The subprocess
itself is the environment's move, supplied as a `SpawnOutcome`; the
wall-clock duration is likewise a parameter.  The working-directory
change (`os.chdir` before the spawn, `os.chdir(original_cwd)` in the
`finally` block) is modelled explicitly on a `cwd` field. -/

/-- What `subprocess.run` did: returned normally, hit the timeout
(`subprocess.TimeoutExpired`), failed to find the executable
(`FileNotFoundError`), or raised something else. -/
inductive SpawnOutcome where
  | completed (returncode : Int) (out : String) (err : String)
  | timedOut
  | notFound
  | raised (msg : String)
deriving DecidableEq

/-- The `{exitCode, stdout, stderr, durationMs}` result dict. -/
structure ExecResult where
  exitCode : Int
  stdout : String
  stderr : String
  durationMs : Nat
deriving DecidableEq

/-- Mutable state touched by `exec`: the registry and the calling
process's current working directory. -/
structure ExecState where
  reg : Registry
  cwd : SPath
deriving DecidableEq

/-- Everything `exec` produces: the result dict, the state afterwards,
and whether a subprocess was spawned at all. -/
structure ExecOutput where
  result : ExecResult
  state : ExecState
  spawned : Bool
deriving DecidableEq

/-- `LocalSandboxBackend.exec`: auto-create the sandbox, validate the
command (rejections return exit code 1 with no spawn), sanitize the
working directory, chdir into it, fold the spawn outcome into the
result, and restore the original working directory in `finally`. -/
def execBackend (baseDir : SPath) (now : Nat) (sessionId : String) (cmd : List String)
    (workdir : String) (timeoutSeconds : Nat) (outcome : SpawnOutcome) (wallMs : Nat)
    (st : ExecState) : ExecOutput :=
  let reg1 :=
    if (regLookup st.reg sessionId).isSome then st.reg
    else createSandbox baseDir now sessionId 900 st.reg
  let sandboxPath :=
    match regLookup reg1 sessionId with
    | some r => r.path
    | none => getSandboxPath baseDir sessionId
  if validateCommand cmd = false then
    { result :=
        { exitCode := 1
          stdout := ""
          stderr := "Command not allowed: " ++ (match cmd with | [] => "empty" | c :: _ => c)
          durationMs := 0 }
      state := { reg := reg1, cwd := st.cwd }
      spawned := false }
  else
    let workdirPath := sanitize workdir sandboxPath "workspace"
    let originalCwd := st.cwd
    let stIn : ExecState := { reg := reg1, cwd := workdirPath }
    let r : ExecResult :=
      match outcome with
      | .completed code out err =>
        { exitCode := code, stdout := out, stderr := err, durationMs := wallMs }
      | .timedOut =>
        { exitCode := 124
          stdout := ""
          stderr := "Command timed out after " ++ toString timeoutSeconds ++ " seconds"
          durationMs := wallMs }
      | .notFound =>
        { exitCode := 127
          stdout := ""
          stderr := "Command not found: " ++ cmd.headD ""
          durationMs := wallMs }
      | .raised msg =>
        { exitCode := 1
          stdout := ""
          stderr := "Execution error: " ++ msg
          durationMs := wallMs }
    { result := r
      state := { stIn with cwd := originalCwd }
      spawned := true }

/-! ## Tar archive codec

`TarHandler` (src/noxrunner/fileops/tar_handler.py).  An archive is the
list of its members; the destination filesystem is modelled lexically
(files with contents, directories), with Python exceptions as explicit
error values.  One simplification is recorded where it occurs: member
extraction for link members is modelled as creating a node at the
member's target path, which is what matters for containment. -/

/-- Tar member types (`REGTYPE`, `DIRTYPE`, `SYMTYPE`, `LNKTYPE`). -/
inductive MemberType where
  | file
  | dir
  | symlink (linkname : String)
  | hardlink (linkname : String)
deriving DecidableEq

/-- One tar member: name, type and (for regular files) content bytes. -/
structure TarMember where
  name : String
  mtype : MemberType
  content : List Nat
deriving DecidableEq

/-- `TarHandler.create_tar` (tar_handler.py 23-48): each dict entry
becomes one regular-file member named by its key, in insertion order,
sized to its exact content. -/
def createTar (files : List (String × List Nat)) : List TarMember :=
  files.map (fun e => { name := e.1, mtype := MemberType.file, content := e.2 })

/-- Lexical filesystem: regular files with contents, and directories. -/
structure FileSystem where
  files : List (SPath × List Nat)
  dirs : List SPath
deriving DecidableEq

/-- Does a regular file exist at `p`? -/
def isFileIn (fs : FileSystem) (p : SPath) : Bool :=
  fs.files.any (fun e => e.1 = p)

/-- Does a directory exist at `p`? -/
def isDirIn (fs : FileSystem) (p : SPath) : Bool :=
  fs.dirs.any (fun d => d = p)

/-- Store a file, overwriting an existing one at the same path. -/
def setFile : List (SPath × List Nat) → SPath → List Nat → List (SPath × List Nat)
  | [], p, c => [(p, c)]
  | e :: rest, p, c => if e.1 = p then (p, c) :: rest else e :: setFile rest p c

/-- `Path.mkdir(parents=True, exist_ok=True)`: raises iff some prefix of
the path exists as a regular file (`FileExistsError` /
`NotADirectoryError`), otherwise ensures the whole directory chain
exists. -/
def mkdirParents (fs : FileSystem) (p : SPath) : Except String FileSystem :=
  if (pathPrefixes p).any (fun q => isFileIn fs q) then
    Except.error "FileExistsError"
  else
    Except.ok { fs with dirs := fs.dirs ++ pathPrefixes p }

/-- Writing a member's content: raises on an existing directory,
overwrites an existing file. -/
def writeFile (fs : FileSystem) (p : SPath) (c : List Nat) : Except String FileSystem :=
  if isDirIn fs p then Except.error "IsADirectoryError"
  else Except.ok { fs with files := setFile fs.files p c }

/-- An existing empty destination directory on an otherwise empty
filesystem. -/
def emptyFS (dest : SPath) : FileSystem :=
  { files := [], dirs := pathPrefixes dest }

/-- pathlib parsing of a member name: split on slashes, drop empty and
`.` segments (keep `..`). -/
def joinSegs (name : String) : SPath :=
  (pySplit '/' name).filter (fun s => ¬(s = "" ∨ s = "."))

/-- `dest / name` (pathlib `/` and `os.path.join`): an absolute name
resets to the filesystem root. -/
def pathJoinRaw (dest : SPath) (name : String) : SPath :=
  if pyIsAbs name then joinSegs name else dest ++ joinSegs name

/-- `(dest / name).resolve()`, lexically. -/
def resolveJoin (dest : SPath) (name : String) : SPath :=
  lexNorm (pathJoinRaw dest name)

/-- tar_handler.py 97-101: after normalising both slash styles, does the
member name contain a `..` segment? -/
def hasDotDotSegment (name : String) : Bool :=
  (pySplit '/' (pyReplaceChar '\\' '/' name)).any (fun part => part = "..")

/-- `TarHandler._is_safe_member` (tar_handler.py 77-121): reject
absolute names, `..` segments, escapes of the destination after
resolution, and link members whose target is absolute or contains a
`..` segment. -/
def isSafeMember (m : TarMember) (dest : SPath) : Bool :=
  if pyIsAbs m.name then false
  else if hasDotDotSegment m.name then false
  else if !(dest.isPrefixOf (resolveJoin dest m.name)) then false
  else
    match m.mtype with
    | MemberType.symlink link =>
      if pyIsAbs link then false
      else if hasDotDotSegment link then false
      else true
    | MemberType.hardlink link =>
      if pyIsAbs link then false
      else if hasDotDotSegment link then false
      else true
    | _ => true

/-- What `extract_tar` produced: the filesystem, the count of extracted
files, and the Python exception that aborted it, if any. -/
structure ExtractOutcome where
  fs : FileSystem
  count : Nat
  error : Option String
deriving DecidableEq

/-- One iteration of the extraction loop (tar_handler.py 150-181):
directories are skipped; without the allow-absolute override an unsafe
member is skipped; a member escaping the extra sandbox boundary is
skipped; otherwise parent directories are created and the member is
written at its destination.  Returns the filesystem, whether the member
was counted, and the exception if one was raised. -/
def extractStep (dest : SPath) (sandboxPath : Option SPath) (allowAbsolute : Bool)
    (fs : FileSystem) (m : TarMember) : FileSystem × Bool × Option String :=
  if m.mtype = MemberType.dir then (fs, false, none)
  else if allowAbsolute = false ∧ isSafeMember m dest = false then (fs, false, none)
  else if (match sandboxPath with
           | some sb => !(sb.isPrefixOf (resolveJoin dest m.name))
           | none => false) then (fs, false, none)
  else
    match mkdirParents fs (pathJoinRaw dest m.name).dropLast with
    | Except.error e => (fs, false, some e)
    | Except.ok fs1 =>
      match writeFile fs1 (resolveJoin dest m.name) m.content with
      | Except.error e => (fs1, false, some e)
      | Except.ok fs2 => (fs2, true, none)

/-- The extraction loop; a raised exception propagates, keeping the
state reached so far. -/
def extractRun (dest : SPath) (sandboxPath : Option SPath) (allowAbsolute : Bool) :
    List TarMember → FileSystem → Nat → ExtractOutcome
  | [], fs, count => { fs := fs, count := count, error := none }
  | m :: rest, fs, count =>
    match extractStep dest sandboxPath allowAbsolute fs m with
    | (fs', _, some e) => { fs := fs', count := count, error := some e }
    | (fs', written, none) =>
      extractRun dest sandboxPath allowAbsolute rest fs'
        (if written then count + 1 else count)

/-- `TarHandler.extract_tar` (tar_handler.py 123-183):
`dest.mkdir(parents=True, exist_ok=True)`, then the member loop. -/
def extractTar (archive : List TarMember) (dest : SPath) (sandboxPath : Option SPath)
    (allowAbsolute : Bool) (fs : FileSystem) : ExtractOutcome :=
  match mkdirParents fs dest with
  | Except.error e => { fs := fs, count := 0, error := some e }
  | Except.ok fs0 => extractRun dest sandboxPath allowAbsolute archive fs0 0

/-! ## Verification predicates -/

/-- A path segment that survives pathlib parsing and lexical resolution
unchanged. -/
def CleanSeg (s : String) : Prop :=
  ¬(s = "" ∨ s = "." ∨ s = "..")

/-- All segments clean. -/
def CleanPath (p : SPath) : Prop :=
  ∀ s ∈ p, CleanSeg s

/-- A member name in canonical relative form: every slash-split piece
is a clean segment, the name is not absolute, and it contains no `..`
segment under either slash style. -/
def canonicalName (n : String) : Bool :=
  (pySplit '/' n).all (fun s => ¬(s = "" ∨ s = "." ∨ s = "..")) &&
    !(pyIsAbs n) && !(hasDotDotSegment n)

/-- Neither name's parsed segment list is a prefix of the other's. -/
def NonPrefix (a b : String × List Nat) : Prop :=
  ¬(joinSegs a.1 <+: joinSegs b.1) ∧ ¬(joinSegs b.1 <+: joinSegs a.1)

/-- Every directory known to the filesystem sits on the path to the
destination or inside the parent chain of an already-written target. -/
def DirsBound (dest : SPath) (targets : List SPath) (dirs : List SPath) : Prop :=
  ∀ d ∈ dirs, d <+: dest ∨ ∃ t ∈ targets, d <+: t.dropLast

/-! ## Supporting lemmas about the embedded string primitives -/

theorem toList_mk (l : List Char) : (String.mk l).toList = l := rfl

theorem mk_toList (s : String) : String.mk s.toList = s := rfl

/-- Bailing out: once a `..` segment occurs anywhere in the list, the
relative-branch loop rejects the whole input. -/
theorem collectParts_eq_none {l : List String} (h : ".." ∈ l) :
    collectParts l = none := by
  induction l with
  | nil => simp at h
  | cons part rest ih =>
    rcases List.mem_cons.mp h with h | h
    · subst h; rfl
    · unfold collectParts
      rw [ih h]
      repeat' split
      all_goals rfl

/-- `splitCharList` never returns the empty list of pieces. -/
theorem splitCharList_ne_nil (sep : Char) (l : List Char) :
    splitCharList sep l ≠ [] := by
  induction l with
  | nil => simp [splitCharList]
  | cons c rest ih =>
    unfold splitCharList
    split
    · simp
    · split
      · simp
      · simp

/-- No piece produced by `splitCharList` contains the separator. -/
theorem splitCharList_no_sep (sep : Char) (l : List Char) :
    ∀ piece ∈ splitCharList sep l, sep ∉ piece := by
  induction l with
  | nil =>
    intro piece hp
    simp [splitCharList] at hp
    simp [hp]
  | cons c rest ih =>
    intro piece hp
    unfold splitCharList at hp
    by_cases hc : c = sep
    · simp [hc] at hp
      rcases hp with hp | hp
      · simp [hp]
      · exact ih piece hp
    · simp [hc] at hp
      rcases hsp : splitCharList sep rest with _ | ⟨p, ps⟩
      · exact absurd hsp (splitCharList_ne_nil sep rest)
      · rw [hsp] at hp
        simp at hp
        rcases hp with hp | hp
        · subst hp
          intro hmem
          rcases List.mem_cons.mp hmem with h | h
          · exact hc h.symm
          · exact ih p (by rw [hsp]; exact List.mem_cons_self p ps) h
        · exact ih piece (by rw [hsp]; exact List.mem_cons_of_mem p hp)

/-- A separator-free character list is split into a single piece. -/
theorem splitCharList_eq_single {sep : Char} {l : List Char}
    (h : ∀ c ∈ l, c ≠ sep) : splitCharList sep l = [l] := by
  induction l with
  | nil => rfl
  | cons c rest ih =>
    unfold splitCharList
    rw [if_neg (h c (List.mem_cons_self c rest))]
    rw [ih (fun d hd => h d (List.mem_cons_of_mem c hd))]

/-- A slash-free string is its own single `pySplit` piece. -/
theorem pySplit_eq_single {s : String} (h : ∀ c ∈ s.toList, c ≠ '/') :
    pySplit '/' s = [s] := by
  unfold pySplit
  rw [splitCharList_eq_single h]
  simp [mk_toList]

/-- Every `pySplit` piece is slash-free. -/
theorem pySplit_no_slash (s : String) :
    ∀ piece ∈ pySplit '/' s, ∀ c ∈ piece.toList, c ≠ '/' := by
  intro piece hp c hc
  unfold pySplit at hp
  rcases List.mem_map.mp hp with ⟨cl, hcl, hmk⟩
  subst hmk
  rw [toList_mk] at hc
  intro heq
  subst heq
  exact splitCharList_no_sep '/' s.toList cl hcl hc

theorem isPrefixOf_append_self (l t : SPath) : l.isPrefixOf (l ++ t) = true := by
  rw [List.isPrefixOf_iff_prefix]
  exact List.prefix_append l t

/-! ### Registry lemmas -/

theorem mem_regSet {reg : Registry} {sid : String} {r : SandboxRecord} {a : String × SandboxRecord}
    (h : a ∈ regSet reg sid r) : a = (sid, r) ∨ a ∈ reg := by
  induction reg with
  | nil => simp [regSet] at h; simp [h]
  | cons e rest ih =>
    unfold regSet at h
    split at h
    · rcases List.mem_cons.mp h with h | h
      · exact Or.inl h
      · exact Or.inr (List.mem_cons_of_mem e h)
    · rcases List.mem_cons.mp h with h | h
      · exact Or.inr (by simp [h])
      · rcases ih h with h | h
        · exact Or.inl h
        · exact Or.inr (List.mem_cons_of_mem e h)

theorem mem_keys_regSet {reg : Registry} {sid : String} {r : SandboxRecord} {b : String}
    (h : b ∈ (regSet reg sid r).map Prod.fst) : b = sid ∨ b ∈ reg.map Prod.fst := by
  rcases List.mem_map.mp h with ⟨a, ha, hb⟩
  rcases mem_regSet ha with h1 | h1
  · subst h1; exact Or.inl hb.symm
  · exact Or.inr (by subst hb; exact List.mem_map_of_mem Prod.fst h1)

theorem nodup_keys_regSet {reg : Registry} {sid : String} {r : SandboxRecord}
    (h : (reg.map Prod.fst).Nodup) : ((regSet reg sid r).map Prod.fst).Nodup := by
  induction reg with
  | nil => simp [regSet]
  | cons e rest ih =>
    unfold regSet
    simp only [List.map_cons, List.nodup_cons] at h
    split
    · simp only [List.map_cons, List.nodup_cons]
      next heq => exact ⟨by rw [← heq]; exact h.1, h.2⟩
    · simp only [List.map_cons, List.nodup_cons]
      refine ⟨fun hmem => ?_, ih h.2⟩
      rcases mem_keys_regSet hmem with h1 | h1
      · next hne => exact hne (h1 ▸ rfl)
      · exact h.1 h1

theorem keys_regSet_of_mem {reg : Registry} {sid : String} {r : SandboxRecord}
    (h : sid ∈ reg.map Prod.fst) :
    (regSet reg sid r).map Prod.fst = reg.map Prod.fst := by
  induction reg with
  | nil => simp at h
  | cons e rest ih =>
    unfold regSet
    split
    · next heq => simp [heq]
    · next hne =>
      simp only [List.map_cons, List.cons.injEq, true_and]
      apply ih
      simp only [List.map_cons, List.mem_cons] at h
      rcases h with h | h
      · exact absurd (h ▸ rfl) hne
      · exact h

theorem regLookup_regSet_self (reg : Registry) (sid : String) (r : SandboxRecord) :
    regLookup (regSet reg sid r) sid = some r := by
  induction reg with
  | nil => simp [regSet, regLookup]
  | cons e rest ih =>
    unfold regSet
    split
    · simp [regLookup]
    · unfold regLookup
      next hne => rw [if_neg hne]; exact ih

theorem regLookup_mem {reg : Registry} {sid : String} {r : SandboxRecord}
    (h : regLookup reg sid = some r) : (sid, r) ∈ reg := by
  induction reg with
  | nil => simp [regLookup] at h
  | cons e rest ih =>
    unfold regLookup at h
    split at h
    · next heq =>
      simp only [Option.some.injEq] at h
      exact List.mem_cons.mpr (Or.inl (by rw [← heq, ← h]))
    · exact List.mem_cons_of_mem e (ih h)

theorem regLookup_isSome_of_mem {reg : Registry} {sid : String}
    (h : sid ∈ reg.map Prod.fst) : (regLookup reg sid).isSome = true := by
  induction reg with
  | nil => simp at h
  | cons e rest ih =>
    unfold regLookup
    split
    · rfl
    · next hne =>
      apply ih
      simp only [List.map_cons, List.mem_cons] at h
      rcases h with h | h
      · exact absurd (h ▸ rfl) hne
      · exact h

theorem mem_regDelete {reg : Registry} {sid : String} {a : String × SandboxRecord}
    (h : a ∈ regDelete reg sid) : a ∈ reg := by
  induction reg with
  | nil => simp [regDelete] at h
  | cons e rest ih =>
    unfold regDelete at h
    split at h
    · exact List.mem_cons_of_mem e h
    · rcases List.mem_cons.mp h with h | h
      · simp [h]
      · exact List.mem_cons_of_mem e (ih h)

theorem keys_regDelete_sublist (reg : Registry) (sid : String) :
    ((regDelete reg sid).map Prod.fst).Sublist (reg.map Prod.fst) := by
  induction reg with
  | nil => simp [regDelete]
  | cons e rest ih =>
    unfold regDelete
    split
    · simp only [List.map_cons]
      exact (List.sublist_cons_self _ _)
    · simp only [List.map_cons]
      exact List.Sublist.cons₂ _ ih

theorem nodup_keys_regDelete {reg : Registry} {sid : String}
    (h : (reg.map Prod.fst).Nodup) : ((regDelete reg sid).map Prod.fst).Nodup :=
  (keys_regDelete_sublist reg sid).nodup h

theorem regLookup_regDelete_self {reg : Registry} {sid : String}
    (h : (reg.map Prod.fst).Nodup) : regLookup (regDelete reg sid) sid = none := by
  induction reg with
  | nil => rfl
  | cons e rest ih =>
    simp only [List.map_cons, List.nodup_cons] at h
    unfold regDelete
    split
    · next heq =>
      rcases hl : regLookup rest sid with _ | ⟨r⟩
      · rfl
      · exact absurd (heq ▸ List.mem_map_of_mem Prod.fst (regLookup_mem hl)) h.1
    · unfold regLookup
      next hne => rw [if_neg hne]; exact ih h.2

theorem regLookup_eq_none {reg : Registry} {sid : String}
    (h : sid ∉ reg.map Prod.fst) : regLookup reg sid = none := by
  induction reg with
  | nil => rfl
  | cons e rest ih =>
    simp only [List.map_cons, List.mem_cons] at h
    push_neg at h
    unfold regLookup
    rw [if_neg (fun heq => h.1 heq.symm)]
    exact ih h.2

/-- String concatenation is left-cancellative (used for injectivity of
the sandbox directory name in the sanitized id). -/
theorem str_append_left_cancel {p x y : String} (h : p ++ x = p ++ y) : x = y := by
  have hd := congrArg String.data h
  simp at hd
  exact String.ext hd

/-- `RegInv` is preserved by every registry operation. -/
theorem regInv_applyRegOp {baseDir : SPath} {reg : Registry} (op : RegOp)
    (h : RegInv baseDir reg) : RegInv baseDir (applyRegOp baseDir reg op) := by
  obtain ⟨hnodup, hpath⟩ := h
  cases op with
  | create now sid ttl =>
    refine ⟨nodup_keys_regSet hnodup, fun e he => ?_⟩
    rcases mem_regSet he with h1 | h1
    · subst h1; rfl
    · exact hpath e h1
  | touch now sid =>
    show RegInv baseDir (touchReg baseDir now sid reg)
    unfold touchReg
    rcases hl : regLookup reg sid with _ | ⟨r⟩
    · refine ⟨nodup_keys_regSet hnodup, fun e he => ?_⟩
      rcases mem_regSet he with h1 | h1
      · subst h1; rfl
      · exact hpath e h1
    · refine ⟨nodup_keys_regSet hnodup, fun e he => ?_⟩
      rcases mem_regSet he with h1 | h1
      · subst h1
        exact hpath (sid, r) (regLookup_mem hl)
      · exact hpath e h1
  | delete sid =>
    exact ⟨nodup_keys_regDelete hnodup, fun e he => hpath e (mem_regDelete he)⟩

/-- `RegInv` holds of every operation sequence run from the empty
registry. -/
theorem regInv_runRegOps (baseDir : SPath) (ops : List RegOp) :
    RegInv baseDir (runRegOps baseDir ops) := by
  suffices h : ∀ reg, RegInv baseDir reg → RegInv baseDir (ops.foldl (applyRegOp baseDir) reg) by
    exact h [] ⟨List.nodup_nil, by simp⟩
  induction ops with
  | nil => intro reg h; exact h
  | cons op rest ih =>
    intro reg h
    exact ih _ (regInv_applyRegOp op h)

/-! ### Filesystem and tar lemmas -/

theorem mem_pathPrefixes {q p : SPath} : q ∈ pathPrefixes p ↔ q <+: p := by
  induction p generalizing q with
  | nil => simp [pathPrefixes, List.prefix_nil]
  | cons s rest ih =>
    unfold pathPrefixes
    rw [List.prefix_cons_iff]
    simp only [List.mem_cons, List.mem_map]
    constructor
    · rintro (h | ⟨q', hq', rfl⟩)
      · exact Or.inl h
      · exact Or.inr ⟨q', rfl, ih.mp hq'⟩
    · rintro (h | ⟨q', rfl, hq'⟩)
      · exact Or.inl h
      · exact Or.inr ⟨q', ih.mpr hq', rfl⟩

theorem lexNorm_foldl_clean {p : SPath} (h : CleanPath p) :
    ∀ acc,
      p.foldl
        (fun acc s =>
          if s = "" ∨ s = "." then acc
          else if s = ".." then acc.dropLast
          else acc ++ [s]) acc = acc ++ p := by
  induction p with
  | nil => intro acc; simp
  | cons s rest ih =>
    intro acc
    have hs := h s (List.mem_cons_self s rest)
    unfold CleanSeg at hs
    push_neg at hs
    simp only [List.foldl_cons]
    rw [if_neg (by tauto), if_neg hs.2.2]
    rw [ih (fun x hx => h x (List.mem_cons_of_mem s hx)) (acc ++ [s])]
    simp

theorem lexNorm_of_clean {p : SPath} (h : CleanPath p) : lexNorm p = p := by
  unfold lexNorm
  rw [lexNorm_foldl_clean h []]
  rfl

theorem mem_setFile {files : List (SPath × List Nat)} {p : SPath} {c : List Nat}
    {a : SPath × List Nat} (h : a ∈ setFile files p c) : a = (p, c) ∨ a ∈ files := by
  induction files with
  | nil => simp [setFile] at h; simp [h]
  | cons e rest ih =>
    unfold setFile at h
    split at h
    · rcases List.mem_cons.mp h with h | h
      · exact Or.inl h
      · exact Or.inr (List.mem_cons_of_mem e h)
    · rcases List.mem_cons.mp h with h | h
      · exact Or.inr (by simp [h])
      · rcases ih h with h | h
        · exact Or.inl h
        · exact Or.inr (List.mem_cons_of_mem e h)

theorem setFile_of_not_mem {files : List (SPath × List Nat)} {p : SPath} {c : List Nat}
    (h : ∀ e ∈ files, e.1 ≠ p) : setFile files p c = files ++ [(p, c)] := by
  induction files with
  | nil => rfl
  | cons e rest ih =>
    unfold setFile
    rw [if_neg (h e (List.mem_cons_self e rest))]
    rw [ih (fun x hx => h x (List.mem_cons_of_mem e hx))]
    rfl

theorem canonicalName_not_abs {n : String} (h : canonicalName n = true) :
    pyIsAbs n = false := by
  unfold canonicalName at h
  simp only [Bool.and_eq_true, Bool.not_eq_true'] at h
  exact h.1.2

theorem canonicalName_no_dotdot {n : String} (h : canonicalName n = true) :
    hasDotDotSegment n = false := by
  unfold canonicalName at h
  simp only [Bool.and_eq_true, Bool.not_eq_true'] at h
  exact h.2

theorem canonicalName_pieces {n : String} (h : canonicalName n = true) :
    ∀ s ∈ pySplit '/' n, CleanSeg s := by
  unfold canonicalName at h
  simp only [Bool.and_eq_true] at h
  intro s hs
  have := List.all_eq_true.mp h.1.1 s hs
  unfold CleanSeg
  simpa using this

theorem joinSegs_of_canonical {n : String} (h : canonicalName n = true) :
    joinSegs n = pySplit '/' n := by
  unfold joinSegs
  apply List.filter_eq_self.mpr
  intro s hs
  have := canonicalName_pieces h s hs
  unfold CleanSeg at this
  push_neg at this
  simp [this.1, this.2.1]

theorem joinSegs_clean {n : String} (h : canonicalName n = true) :
    CleanPath (joinSegs n) := by
  rw [joinSegs_of_canonical h]
  exact canonicalName_pieces h

theorem pySplit_ne_nil (sep : Char) (s : String) : pySplit sep s ≠ [] := by
  unfold pySplit
  intro h
  exact splitCharList_ne_nil sep s.toList (List.map_eq_nil_iff.mp h)

theorem joinSegs_ne_nil {n : String} (h : canonicalName n = true) :
    joinSegs n ≠ [] := by
  rw [joinSegs_of_canonical h]
  exact pySplit_ne_nil '/' n

theorem pathJoinRaw_of_canonical {n : String} (dest : SPath) (h : canonicalName n = true) :
    pathJoinRaw dest n = dest ++ joinSegs n := by
  unfold pathJoinRaw
  rw [canonicalName_not_abs h]
  rfl

theorem resolveJoin_of_canonical {n : String} {dest : SPath} (h : canonicalName n = true)
    (hdest : CleanPath dest) : resolveJoin dest n = dest ++ joinSegs n := by
  unfold resolveJoin
  rw [pathJoinRaw_of_canonical dest h]
  apply lexNorm_of_clean
  intro s hs
  rcases List.mem_append.mp hs with hs | hs
  · exact hdest s hs
  · exact joinSegs_clean h s hs

theorem isSafeMember_of_canonical {n : String} {dest : SPath} (c : List Nat)
    (h : canonicalName n = true) (hdest : CleanPath dest) :
    isSafeMember { name := n, mtype := MemberType.file, content := c } dest = true := by
  unfold isSafeMember
  simp only [canonicalName_not_abs h, canonicalName_no_dotdot h,
    resolveJoin_of_canonical h hdest, isPrefixOf_append_self]
  rfl

theorem isSafeMember_eq_false {m : TarMember} (dest : SPath)
    (h : pyIsAbs m.name = true ∨ hasDotDotSegment m.name = true) :
    isSafeMember m dest = false := by
  unfold isSafeMember
  rcases h with h | h
  · simp [h]
  · by_cases habs : pyIsAbs m.name <;> simp [habs, h]

theorem isSafeMember_contained {m : TarMember} {dest : SPath}
    (h : isSafeMember m dest = true) :
    dest <+: resolveJoin dest m.name := by
  unfold isSafeMember at h
  by_cases habs : pyIsAbs m.name = true
  · simp [habs] at h
  · by_cases hdd : hasDotDotSegment m.name = true
    · simp [habs, hdd] at h
    · by_cases hpre : dest.isPrefixOf (resolveJoin dest m.name) = true
      · exact List.isPrefixOf_iff_prefix.mp hpre
      · simp [habs, hdd, hpre] at h

theorem mkdirParents_ok_files {fs fs' : FileSystem} {p : SPath}
    (h : mkdirParents fs p = Except.ok fs') : fs'.files = fs.files := by
  unfold mkdirParents at h
  split at h
  · cases h
  · cases h; rfl

theorem mkdirParents_ok_dirs {fs fs' : FileSystem} {p : SPath}
    (h : mkdirParents fs p = Except.ok fs') : fs'.dirs = fs.dirs ++ pathPrefixes p := by
  unfold mkdirParents at h
  split at h
  · cases h
  · cases h; rfl

theorem mkdirParents_ok_of_no_file {fs : FileSystem} {p : SPath}
    (h : ∀ q ∈ pathPrefixes p, isFileIn fs q = false) :
    mkdirParents fs p = Except.ok { fs with dirs := fs.dirs ++ pathPrefixes p } := by
  unfold mkdirParents
  rw [if_neg ?_]
  intro hany
  rcases List.any_eq_true.mp hany with ⟨q, hq, hfile⟩
  rw [h q hq] at hfile
  cases hfile

theorem writeFile_ok_of_not_dir {fs : FileSystem} {p : SPath} {c : List Nat}
    (h : isDirIn fs p = false) :
    writeFile fs p c = Except.ok { fs with files := setFile fs.files p c } := by
  unfold writeFile
  rw [h]
  rfl

theorem isFileIn_eq_false {fs : FileSystem} {p : SPath}
    (h : ∀ e ∈ fs.files, e.1 ≠ p) : isFileIn fs p = false := by
  unfold isFileIn
  rw [List.any_eq_false]
  intro e he
  simp [h e he]

theorem isDirIn_eq_false {fs : FileSystem} {p : SPath}
    (h : p ∉ fs.dirs) : isDirIn fs p = false := by
  unfold isDirIn
  rw [List.any_eq_false]
  intro d hd
  simp only [decide_eq_true_eq]
  intro heq
  exact h (heq ▸ hd)

/-- Members with an absolute name or a `..` segment are rejected and
skipped: the loop body leaves the filesystem and the count unchanged and
raises nothing. -/
theorem extractStep_skip_bad {dest : SPath} (sb : Option SPath) (fs : FileSystem)
    {m : TarMember} (h : pyIsAbs m.name = true ∨ hasDotDotSegment m.name = true) :
    extractStep dest sb false fs m = (fs, false, none) := by
  unfold extractStep
  by_cases hdir : m.mtype = MemberType.dir
  · rw [if_pos hdir]
  · rw [if_neg hdir, if_pos ⟨rfl, isSafeMember_eq_false dest h⟩]

/-- Without the allow-absolute override, every file present after one
loop iteration was present before or sits under the destination. -/
theorem extractStep_files {dest : SPath} {sb : Option SPath} {fs : FileSystem}
    {m : TarMember} (a : SPath × List Nat)
    (ha : a ∈ (extractStep dest sb false fs m).1.files) :
    a ∈ fs.files ∨ dest <+: a.1 := by
  unfold extractStep at ha
  split at ha
  · exact Or.inl ha
  · split at ha
    · exact Or.inl ha
    · split at ha
      · exact Or.inl ha
      · next hdir hskip hsb =>
        have hsafe : isSafeMember m dest = true := by
          by_cases h : isSafeMember m dest = true
          · exact h
          · exact absurd ⟨rfl, by simpa using h⟩ hskip
        rcases hmk : mkdirParents fs (pathJoinRaw dest m.name).dropLast with e | fs1
        · rw [hmk] at ha
          exact Or.inl ha
        · rw [hmk] at ha
          dsimp only at ha
          have hfiles1 : fs1.files = fs.files := mkdirParents_ok_files hmk
          rcases hw : writeFile fs1 (resolveJoin dest m.name) m.content with e | fs2
          · rw [hw] at ha
            rw [hfiles1] at ha
            exact Or.inl ha
          · rw [hw] at ha
            unfold writeFile at hw
            split at hw
            · cases hw
            · cases hw
              simp only at ha
              rcases mem_setFile ha with h | h
              · subst h
                exact Or.inr (isSafeMember_contained hsafe)
              · rw [hfiles1] at h
                exact Or.inl h

/-- A list of members that are all rejected extracts to nothing, without
an exception. -/
theorem extractRun_all_bad {dest : SPath} (sb : Option SPath) {ms : List TarMember}
    (h : ∀ m ∈ ms, pyIsAbs m.name = true ∨ hasDotDotSegment m.name = true) :
    ∀ fs count, extractRun dest sb false ms fs count =
      { fs := fs, count := count, error := none } := by
  induction ms with
  | nil => intro fs count; rfl
  | cons m rest ih =>
    intro fs count
    unfold extractRun
    rw [extractStep_skip_bad sb fs (h m (List.mem_cons_self m rest))]
    exact ih (fun x hx => h x (List.mem_cons_of_mem m hx)) fs count

theorem not_append_prefix_left {dest jn : SPath} (h : jn ≠ []) :
    ¬(dest ++ jn <+: dest) := by
  intro hpre
  have := hpre.length_le
  simp only [List.length_append] at this
  have : jn.length = 0 := by omega
  exact h (List.length_eq_zero.mp this)

theorem not_prefix_dropLast_self {l : SPath} (h : l ≠ []) :
    ¬(l <+: l.dropLast) := by
  intro hpre
  have h1 := hpre.length_le
  rw [List.length_dropLast] at h1
  have h2 : 0 < l.length := List.length_pos.mpr h
  omega

/-- The loop body on a canonical, fresh, prefix-free member: the member
is accepted, its parent directories are created and its content written,
and the count advances. -/
theorem extractStep_write {dest : SPath} {fs : FileSystem} {n : String} {c : List Nat}
    {done : List (String × List Nat)}
    (hdest : CleanPath dest) (hn : canonicalName n = true)
    (hnp : ∀ e ∈ done, NonPrefix e (n, c))
    (hfiles : fs.files = done.map (fun e => (dest ++ joinSegs e.1, e.2))) :
    DirsBound dest (done.map (fun e => dest ++ joinSegs e.1)) fs.dirs →
    extractStep dest none false fs { name := n, mtype := MemberType.file, content := c } =
      ({ files := fs.files ++ [(dest ++ joinSegs n, c)]
         dirs := fs.dirs ++ pathPrefixes ((dest ++ joinSegs n).dropLast) }, true, none) := by
  intro hdirs
  have hjn : joinSegs n ≠ [] := joinSegs_ne_nil hn
  have hsafe : isSafeMember { name := n, mtype := MemberType.file, content := c } dest = true :=
    isSafeMember_of_canonical c hn hdest
  have hjoin : pathJoinRaw dest n = dest ++ joinSegs n := pathJoinRaw_of_canonical dest hn
  have hres : resolveJoin dest n = dest ++ joinSegs n := resolveJoin_of_canonical hn hdest
  have hmk : mkdirParents fs ((dest ++ joinSegs n).dropLast) =
      Except.ok { fs with dirs := fs.dirs ++ pathPrefixes ((dest ++ joinSegs n).dropLast) } := by
    apply mkdirParents_ok_of_no_file
    intro q hq
    apply isFileIn_eq_false
    intro e' he' heq
    rw [hfiles] at he'
    rcases List.mem_map.mp he' with ⟨e, he, rfl⟩
    have heq' : dest ++ joinSegs e.1 = q := heq
    have hq' : dest ++ joinSegs e.1 <+: (dest ++ joinSegs n).dropLast := by
      rw [heq']
      exact mem_pathPrefixes.mp hq
    rw [List.dropLast_append_of_ne_nil dest hjn] at hq'
    have h1 : joinSegs e.1 <+: (joinSegs n).dropLast :=
      (List.prefix_append_right_inj dest).mp hq'
    exact (hnp e he).1 (h1.trans (List.dropLast_prefix (joinSegs n)))
  have hwr : writeFile { fs with dirs := fs.dirs ++ pathPrefixes ((dest ++ joinSegs n).dropLast) }
      (dest ++ joinSegs n) c =
      Except.ok { files := fs.files ++ [(dest ++ joinSegs n, c)]
                  dirs := fs.dirs ++ pathPrefixes ((dest ++ joinSegs n).dropLast) } := by
    rw [writeFile_ok_of_not_dir ?notdir]
    · have hset : setFile fs.files (dest ++ joinSegs n) c
          = fs.files ++ [(dest ++ joinSegs n, c)] := by
        apply setFile_of_not_mem
        intro e' he' heq
        rw [hfiles] at he'
        rcases List.mem_map.mp he' with ⟨e, he, rfl⟩
        have : joinSegs e.1 = joinSegs n := by
          have := (List.append_right_injective dest) heq
          simpa using this
        exact (hnp e he).1 (this ▸ List.prefix_refl _)
      simp only [hset]
    case notdir =>
      apply isDirIn_eq_false
      intro hmem
      simp only [List.mem_append] at hmem
      rcases hmem with hmem | hmem
      · rcases hdirs _ hmem with h1 | ⟨t, ht, h1⟩
        · exact not_append_prefix_left hjn h1
        · rcases List.mem_map.mp ht with ⟨e, he, rfl⟩
          rw [List.dropLast_append_of_ne_nil dest (fun hnil => ?_)] at h1
          · have h2 : joinSegs n <+: (joinSegs e.1).dropLast :=
              (List.prefix_append_right_inj dest).mp h1
            exact (hnp e he).2 (h2.trans (List.dropLast_prefix (joinSegs e.1)))
          · -- an empty parsed name cannot occur: joinSegs e.1 = [] contradicts
            -- the prefix-freeness with the non-empty joinSegs n
            exact (hnp e he).1 (by rw [hnil]; exact List.nil_prefix)
      · have h1 : dest ++ joinSegs n <+: (dest ++ joinSegs n).dropLast :=
          mem_pathPrefixes.mp hmem
        exact not_prefix_dropLast_self (by simp [hjn]) h1
  unfold extractStep
  rw [if_neg (by simp), if_neg ?skip, if_neg (by simp)]
  · rw [hjoin, hmk]
    dsimp only
    rw [hres, hwr]
  case skip =>
    intro hc
    rw [hsafe] at hc
    exact absurd hc.2 (by simp)

/-- Extraction of canonical, pairwise prefix-free members writes exactly
those members, in order, under the destination. -/
theorem extractRun_roundtrip {dest : SPath} (hdest : CleanPath dest) :
    ∀ (pending done : List (String × List Nat)) (fs : FileSystem),
      (∀ e ∈ done ++ pending, canonicalName e.1 = true) →
      List.Pairwise NonPrefix (done ++ pending) →
      fs.files = done.map (fun e => (dest ++ joinSegs e.1, e.2)) →
      DirsBound dest (done.map (fun e => dest ++ joinSegs e.1)) fs.dirs →
      ∃ dirs',
        extractRun dest none false (createTar pending) fs done.length =
          { fs := { files := (done ++ pending).map (fun e => (dest ++ joinSegs e.1, e.2))
                    dirs := dirs' }
            count := (done ++ pending).length
            error := none } := by
  intro pending
  induction pending with
  | nil =>
    intro done fs hcanon hpw hfiles hdirs
    refine ⟨fs.dirs, ?_⟩
    show extractRun dest none false [] fs done.length = _
    unfold extractRun
    rw [List.append_nil]
    cases fs
    simp only at hfiles
    simp [hfiles, List.length_map]
  | cons eNC rest ih =>
    intro done fs hcanon hpw hfiles hdirs
    obtain ⟨n, c⟩ := eNC
    have hct : createTar ((n, c) :: rest)
        = { name := n, mtype := MemberType.file, content := c } :: createTar rest := rfl
    have hn : canonicalName n = true := hcanon (n, c) (by simp)
    have hnp : ∀ e ∈ done, NonPrefix e (n, c) := by
      rw [List.pairwise_append] at hpw
      exact fun e he => hpw.2.2 e he (n, c) (by simp)
    have hstep := extractStep_write hdest hn hnp hfiles hdirs
    rw [hct]
    unfold extractRun
    rw [hstep]
    dsimp only
    have hassoc : done ++ (n, c) :: rest = (done ++ [(n, c)]) ++ rest := by simp
    have hcanon' : ∀ e ∈ (done ++ [(n, c)]) ++ rest, canonicalName e.1 = true := by
      rw [← hassoc]; exact hcanon
    have hpw' : List.Pairwise NonPrefix ((done ++ [(n, c)]) ++ rest) := by
      rw [← hassoc]; exact hpw
    have hfiles' :
        (fs.files ++ [(dest ++ joinSegs n, c)])
          = (done ++ [(n, c)]).map (fun e => (dest ++ joinSegs e.1, e.2)) := by
      rw [hfiles, List.map_append]
      rfl
    have hdirs' :
        DirsBound dest ((done ++ [(n, c)]).map (fun e => dest ++ joinSegs e.1))
          (fs.dirs ++ pathPrefixes ((dest ++ joinSegs n).dropLast)) := by
      intro d hd
      rcases List.mem_append.mp hd with hd | hd
      · rcases hdirs d hd with h1 | ⟨t, ht, h1⟩
        · exact Or.inl h1
        · exact Or.inr ⟨t, by simp only [List.map_append, List.mem_append]; exact Or.inl ht, h1⟩
      · refine Or.inr ⟨dest ++ joinSegs n, ?_, mem_pathPrefixes.mp hd⟩
        simp
    obtain ⟨dirs', hrun⟩ := ih (done ++ [(n, c)])
      { files := fs.files ++ [(dest ++ joinSegs n, c)]
        dirs := fs.dirs ++ pathPrefixes ((dest ++ joinSegs n).dropLast) }
      hcanon' hpw' hfiles' hdirs'
    refine ⟨dirs', ?_⟩
    have hlen : (done ++ [(n, c)]).length = done.length + 1 := by simp
    rw [hlen] at hrun
    rw [if_pos rfl, hrun, hassoc]

/-- Containment for the whole loop. -/
theorem extractRun_files {dest : SPath} {sb : Option SPath} :
    ∀ (ms : List TarMember) (fs : FileSystem) (count : Nat)
      (a : SPath × List Nat),
      a ∈ (extractRun dest sb false ms fs count).fs.files →
        a ∈ fs.files ∨ dest <+: a.1 := by
  intro ms
  induction ms with
  | nil => intro fs count a ha; exact Or.inl ha
  | cons m rest ih =>
    intro fs count a ha
    unfold extractRun at ha
    rcases hstep : extractStep dest sb false fs m with ⟨fs', w, err⟩
    rw [hstep] at ha
    have hfs' : fs' = (extractStep dest sb false fs m).1 := by rw [hstep]
    cases err with
    | some e =>
      simp only at ha
      rcases extractStep_files a (hfs' ▸ ha) with h | h
      · exact Or.inl h
      · exact Or.inr h
    | none =>
      simp only at ha
      rcases ih fs' _ a ha with h | h
      · rcases extractStep_files a (hfs' ▸ h) with h2 | h2
        · exact Or.inl h2
        · exact Or.inr h2
      · exact Or.inr h

end Noxrunner

namespace Noxrunner

/-- C1: the code accepts `["nmap", "localhost"]` although `nmap` is not in
the allow-set; the reference policy of the spec rejects it.  The repo's
own test-suite (tests/test_security.py, `test_validate_unknown_command_blocked`)
asserts that this very input must be rejected. -/
theorem validate_command_accepts_unlisted :
    validateCommand ["nmap", "localhost"] = true ∧
      specValidate ["nmap", "localhost"] = false := by
  constructor <;> decide

/-- C3 counterexample: the absolute input `/sb/workspace/a/../b` contains a
`..` segment, yet `sanitize` does not return the workspace root
`/sb/workspace`: the absolute branch resolves the path and returns the
resolved location because it lies inside the sandbox. -/
theorem sanitize_dotdot_claim_counterexample :
    (".." ∈ pySplit '/' "/sb/workspace/a/../b") ∧
      sanitize "/sb/workspace/a/../b" ["sb"] "workspace" = ["sb", "workspace", "b"] ∧
      (["sb", "workspace", "b"] : SPath) ≠ ["sb", "workspace"] := by
  refine ⟨by decide, by decide, by decide⟩

/-- C4 counterexample: `sanitize_filename("..")` returns `..` itself,
which is a `..` segment, so the result is not free of `..` segments. -/
theorem sanitize_filename_claim_counterexample :
    sanitizeFilename ".." = ".." ∧
      ¬((pySplit '/' (sanitizeFilename "..")).all (fun s => s ≠ "..") = true) := by
  refine ⟨by decide, by decide⟩

/-- C3 (amended): for every *relative* input that contains a `..`
segment (after normalising both slash styles), `sanitize` returns the
workspace root under the sandbox, with no partial traversal tolerated;
being a total function, it never raises.  (An absolute input containing
`..` may instead return its resolved location when that lies inside the
sandbox.) -/
theorem sanitize_relative_dotdot (path : String) (R : SPath) (w : String)
    (habs : pyIsAbs path = false)
    (h : ".." ∈ pySplit '/' (pyReplaceChar '\\' '/' path)) :
    sanitize path R w = R ++ [w] := by
  unfold sanitize
  rw [habs]
  simp only [Bool.false_eq_true, if_false]
  rw [collectParts_eq_none h]

/-- C3 witness: the relative traversal input `a/../b` is sent to the
workspace root. -/
theorem sanitize_relative_dotdot_witness :
    sanitize "a/../b" ["sb"] "workspace" = ["sb", "workspace"] :=
  sanitize_relative_dotdot "a/../b" ["sb"] "workspace" (by decide) (by decide)

/-- C4 (amended): `sanitize_filename` returns the final pathlib
component of its input, with every directory component stripped; the
result contains no path separator, and it contains no `..` segment
except in the single case where the returned final component is itself
`..` (e.g. for input `".."`), which is returned verbatim. -/
theorem sanitize_filename_basename (f : String) :
    ((sanitizeFilename f).toList.all (fun c => c ≠ '/')) = true ∧
      (sanitizeFilename f ≠ ".." →
        (pySplit '/' (sanitizeFilename f)).all (fun s => s ≠ "..") = true) := by
  have hslash : ∀ c ∈ (sanitizeFilename f).toList, c ≠ '/' := by
    intro c hc
    unfold sanitizeFilename pathlibName at hc
    rcases hlast : ((pySplit '/' f).filter (fun s => ¬(s = "" ∨ s = "."))).getLast? with _ | ⟨piece⟩
    · rw [hlast] at hc
      simp [Option.getD] at hc
    · rw [hlast] at hc
      simp only [Option.getD] at hc
      have hp : piece ∈ pySplit '/' f := by
        have := List.mem_of_mem_getLast? hlast
        exact List.mem_of_mem_filter this
      exact pySplit_no_slash f piece hp c hc
  refine ⟨List.all_eq_true.mpr (fun c hc => by simpa using hslash c hc), ?_⟩
  intro hne
  rw [pySplit_eq_single hslash]
  simp [hne]

/-- C4 witness: a path with directories and a benign `..`-containing
filename keeps only the final component. -/
theorem sanitize_filename_basename_witness :
    ((sanitizeFilename "dir/file..txt").toList.all (fun c => c ≠ '/')) = true ∧
      (pySplit '/' (sanitizeFilename "dir/file..txt")).all (fun s => s ≠ "..") = true :=
  ⟨(sanitize_filename_basename "dir/file..txt").1,
    (sanitize_filename_basename "dir/file..txt").2 (by decide)⟩

/-- C6 (amended): in the relative branch, a lone segment (free of both
slash styles, not empty, not `.`, not `..`) is rejected — workspace root
returned — exactly when it contains two adjacent dots *and* reduces to
nothing once its dots and slashes are deleted and surrounding whitespace
is stripped.  Hence every segment made only of three or more dots is
rejected, and every segment containing a character that is neither a dot
nor whitespace (e.g. `file..txt`) is kept verbatim; but a segment of
dots and whitespace such as `" .."` is rejected even though it contains
a non-dot character. -/
theorem sanitize_single_segment (part : String) (R : SPath) (w : String)
    (habs : pyIsAbs part = false)
    (hsplit : pySplit '/' (pyReplaceChar '\\' '/' part) = [part])
    (h0 : part ≠ "") (h1 : part ≠ ".") (h2 : part ≠ "..") :
    sanitize part R w =
      (if pyHasDotDot part = true ∧ pyStrip (pyRemoveChar '/' (pyRemoveChar '.' part)) = ""
       then R ++ [w] else R ++ [w, part]) := by
  unfold sanitize
  rw [habs]
  simp only [Bool.false_eq_true, if_false]
  rw [hsplit]
  unfold collectParts
  rw [if_neg (by simp [h0, h1]), if_neg h2]
  by_cases hdd : pyHasDotDot part = true
  · rw [if_pos hdd]
    by_cases hstrip : pyStrip (pyRemoveChar '/' (pyRemoveChar '.' part)) = ""
    · rw [if_pos hstrip, if_pos ⟨hdd, hstrip⟩]
    · rw [if_neg hstrip, if_neg (by tauto)]
      show (match some [part] with
        | none => R ++ [w]
        | some [] => R ++ [w]
        | some normalizedParts =>
          if R.isPrefixOf (R ++ [w] ++ normalizedParts) then R ++ [w] ++ normalizedParts
          else R ++ [w]) = R ++ [w, part]
      simp [isPrefixOf_append_self]
  · rw [if_neg hdd, if_neg (by tauto)]
    show (match some [part] with
      | none => R ++ [w]
      | some [] => R ++ [w]
      | some normalizedParts =>
        if R.isPrefixOf (R ++ [w] ++ normalizedParts) then R ++ [w] ++ normalizedParts
        else R ++ [w]) = R ++ [w, part]
    simp [isPrefixOf_append_self]

/-- C6 witness: the segment `file..txt` is kept verbatim. -/
theorem sanitize_single_segment_witness :
    sanitize "file..txt" ["sb"] "workspace" = ["sb", "workspace", "file..txt"] := by
  have h := sanitize_single_segment "file..txt" ["sb"] "workspace"
    (by decide) (by decide) (by decide) (by decide) (by decide)
  rw [h]
  decide

/-- C2 counterexample: after creating sessions `"a?"` and `"a!"`, two
distinct session ids are live simultaneously, yet their records share
the same root path, because `_get_sandbox_path` drops non-alphanumeric
characters from the id before building the directory name. -/
theorem registry_shared_root_counterexample :
    (createSandbox ["tmp"] 0 "a!" 900 (createSandbox ["tmp"] 0 "a?" 900 [])).map Prod.fst
        = ["a?", "a!"] ∧
      ("a?" : String) ≠ "a!" ∧
      (createSandbox ["tmp"] 0 "a!" 900 (createSandbox ["tmp"] 0 "a?" 900 [])).map
          (fun e => e.2.path)
        = [["tmp", "noxrunner_sandbox_a"], ["tmp", "noxrunner_sandbox_a"]] := by
  refine ⟨by decide, by decide, by decide⟩

/-- C2 (amended): across every sequence of create/touch/delete
operations from the empty registry, each session identifier maps to at
most one live record (creating with an existing identifier rewrites that
entry in place — same key set — and refreshes the expiry to
`now + ttl`), and two live records have distinct root paths whenever
their *sanitized* identifiers differ; identifiers whose alphanumeric,
dash and underscore projections coincide share a root path. -/
theorem registry_invariants (baseDir : SPath) (ops : List RegOp) :
    ((runRegOps baseDir ops).map Prod.fst).Nodup ∧
      (∀ now sid ttl,
        sid ∈ (runRegOps baseDir ops).map Prod.fst →
          (createSandbox baseDir now sid ttl (runRegOps baseDir ops)).map Prod.fst
            = (runRegOps baseDir ops).map Prod.fst) ∧
      (∀ now sid ttl,
        regLookup (createSandbox baseDir now sid ttl (runRegOps baseDir ops)) sid
          = some { path := getSandboxPath baseDir sid, createdAt := now,
                   expiresAt := now + ttl, ttlSeconds := ttl }) ∧
      (∀ e₁ ∈ runRegOps baseDir ops, ∀ e₂ ∈ runRegOps baseDir ops,
        safeId e₁.1 ≠ safeId e₂.1 → e₁.2.path ≠ e₂.2.path) := by
  obtain ⟨hnodup, hpath⟩ := regInv_runRegOps baseDir ops
  refine ⟨hnodup, fun now sid ttl hmem => keys_regSet_of_mem hmem,
    fun now sid ttl => regLookup_regSet_self _ _ _, fun e₁ h₁ e₂ h₂ hne heq => ?_⟩
  rw [hpath e₁ h₁, hpath e₂ h₂] at heq
  unfold getSandboxPath at heq
  have hlast := List.append_inj_right heq (by rfl)
  simp only [List.cons.injEq, and_true] at hlast
  exact hne (str_append_left_cancel hlast)

/-- C2 witness: re-creating the live session `"ab"` keeps the key set
unchanged and refreshes the stored expiry. -/
theorem registry_invariants_witness :
    ((createSandbox ["tmp"] 9 "ab" 50 (runRegOps ["tmp"] [RegOp.create 5 "ab" 100])).map
        Prod.fst = (runRegOps ["tmp"] [RegOp.create 5 "ab" 100]).map Prod.fst) ∧
      regLookup (createSandbox ["tmp"] 9 "ab" 50 (runRegOps ["tmp"] [RegOp.create 5 "ab" 100]))
          "ab"
        = some { path := ["tmp", "noxrunner_sandbox_ab"], createdAt := 9,
                 expiresAt := 59, ttlSeconds := 50 } :=
  ⟨((registry_invariants ["tmp"] [RegOp.create 5 "ab" 100]).2.1 9 "ab" 50 (by decide)),
    ((registry_invariants ["tmp"] [RegOp.create 5 "ab" 100]).2.2.1 9 "ab" 50)⟩

/-- C9: deleting an unknown session returns `False` and leaves the state
untouched; deleting twice in a row returns `False` the second time; a
successful delete removes both the registry entry and every filesystem
node under the record's root, leaving no partial state. -/
theorem delete_sandbox_behavior (st : BackendFsState) (sid : String)
    (hnodup : (st.reg.map Prod.fst).Nodup) :
    ((deleteSandbox sid (deleteSandbox sid st).2).1 = false) ∧
      (regLookup st.reg sid = none → deleteSandbox sid st = (false, st)) ∧
      (∀ r, regLookup st.reg sid = some r →
        (deleteSandbox sid st).1 = true ∧
          regLookup ((deleteSandbox sid st).2).reg sid = none ∧
          ∀ p ∈ ((deleteSandbox sid st).2).tree, r.path.isPrefixOf p = false) := by
  refine ⟨?_, ?_, ?_⟩
  · unfold deleteSandbox
    rcases hl : regLookup st.reg sid with _ | ⟨r⟩
    · simp [hl]
    · simp only [hl]
      rw [regLookup_regDelete_self hnodup]
  · intro h
    unfold deleteSandbox
    rw [h]
  · intro r h
    unfold deleteSandbox
    rw [h]
    refine ⟨rfl, regLookup_regDelete_self hnodup, fun p hp => ?_⟩
    simp only [List.mem_filter] at hp
    simpa using hp.2

/-- C9 witness: deleting a concrete live session succeeds, removes entry
and tree, and a second delete fails. -/
theorem delete_sandbox_behavior_witness :
    ((deleteSandbox "s"
        (deleteSandbox "s"
          { reg := [("s", { path := ["tmp", "noxrunner_sandbox_s"], createdAt := 0,
                            expiresAt := 900, ttlSeconds := 900 })]
            tree := [["tmp"], ["tmp", "noxrunner_sandbox_s"],
                     ["tmp", "noxrunner_sandbox_s", "workspace"]] }).2).1 = false) ∧
      regLookup ((deleteSandbox "s"
          { reg := [("s", { path := ["tmp", "noxrunner_sandbox_s"], createdAt := 0,
                            expiresAt := 900, ttlSeconds := 900 })]
            tree := [["tmp"], ["tmp", "noxrunner_sandbox_s"],
                     ["tmp", "noxrunner_sandbox_s", "workspace"]] }).2).reg "s" = none :=
  ⟨(delete_sandbox_behavior
      { reg := [("s", { path := ["tmp", "noxrunner_sandbox_s"], createdAt := 0,
                        expiresAt := 900, ttlSeconds := 900 })]
        tree := [["tmp"], ["tmp", "noxrunner_sandbox_s"],
                 ["tmp", "noxrunner_sandbox_s", "workspace"]] } "s" (by decide)).1,
    ((delete_sandbox_behavior
      { reg := [("s", { path := ["tmp", "noxrunner_sandbox_s"], createdAt := 0,
                        expiresAt := 900, ttlSeconds := 900 })]
        tree := [["tmp"], ["tmp", "noxrunner_sandbox_s"],
                 ["tmp", "noxrunner_sandbox_s", "workspace"]] } "s" (by decide)).2.2
        { path := ["tmp", "noxrunner_sandbox_s"], createdAt := 0,
          expiresAt := 900, ttlSeconds := 900 }
        (by decide)).2.1⟩

/-- C7: `exec` always yields a well-formed result: a rejected command
gives exit code 1, empty stdout, a "Command not allowed" stderr and no
spawned process; a timeout gives exit code 124 with empty stdout; a
missing executable gives exit code 127 with a "Command not found"
stderr. -/
theorem exec_result_wellformed (baseDir : SPath) (now : Nat) (sid : String)
    (cmd : List String) (workdir : String) (tmo : Nat) (outcome : SpawnOutcome)
    (wallMs : Nat) (st : ExecState) :
    (validateCommand cmd = false →
      (execBackend baseDir now sid cmd workdir tmo outcome wallMs st).result =
          { exitCode := 1, stdout := "",
            stderr := "Command not allowed: " ++ (match cmd with | [] => "empty" | c :: _ => c),
            durationMs := 0 } ∧
        (execBackend baseDir now sid cmd workdir tmo outcome wallMs st).spawned = false) ∧
      (validateCommand cmd = true → outcome = SpawnOutcome.timedOut →
        (execBackend baseDir now sid cmd workdir tmo outcome wallMs st).result.exitCode = 124 ∧
          (execBackend baseDir now sid cmd workdir tmo outcome wallMs st).result.stdout = "") ∧
      (validateCommand cmd = true → outcome = SpawnOutcome.notFound →
        (execBackend baseDir now sid cmd workdir tmo outcome wallMs st).result.exitCode = 127 ∧
          (execBackend baseDir now sid cmd workdir tmo outcome wallMs st).result.stderr
            = "Command not found: " ++ cmd.headD "") := by
  refine ⟨fun hv => ?_, fun hv ho => ?_, fun hv ho => ?_⟩
  · unfold execBackend
    rw [if_pos hv]
    exact ⟨rfl, rfl⟩
  · subst ho
    unfold execBackend
    rw [if_neg (by simp [hv])]
    exact ⟨rfl, rfl⟩
  · subst ho
    unfold execBackend
    rw [if_neg (by simp [hv])]
    exact ⟨rfl, rfl⟩

/-- C7 witness: the three failure classes at concrete inputs: the
deny-listed `rm` is rejected without a spawn, a timed-out `echo` yields
124, and a missing executable yields 127. -/
theorem exec_result_wellformed_witness :
    ((execBackend ["tmp"] 0 "s" ["rm", "-rf"] "/workspace" 30 SpawnOutcome.timedOut 5
        { reg := [], cwd := ["home"] }).result =
        { exitCode := 1, stdout := "", stderr := "Command not allowed: rm", durationMs := 0 } ∧
      (execBackend ["tmp"] 0 "s" ["rm", "-rf"] "/workspace" 30 SpawnOutcome.timedOut 5
        { reg := [], cwd := ["home"] }).spawned = false) ∧
      ((execBackend ["tmp"] 0 "s" ["echo", "hi"] "/workspace" 30 SpawnOutcome.timedOut 5
          { reg := [], cwd := ["home"] }).result.exitCode = 124 ∧
        (execBackend ["tmp"] 0 "s" ["echo", "hi"] "/workspace" 30 SpawnOutcome.timedOut 5
          { reg := [], cwd := ["home"] }).result.stdout = "") ∧
      ((execBackend ["tmp"] 0 "s" ["definitely-not-a-real-binary"] "/workspace" 30
          SpawnOutcome.notFound 5 { reg := [], cwd := ["home"] }).result.exitCode = 127 ∧
        (execBackend ["tmp"] 0 "s" ["definitely-not-a-real-binary"] "/workspace" 30
          SpawnOutcome.notFound 5 { reg := [], cwd := ["home"] }).result.stderr
          = "Command not found: definitely-not-a-real-binary") :=
  ⟨(exec_result_wellformed ["tmp"] 0 "s" ["rm", "-rf"] "/workspace" 30 SpawnOutcome.timedOut 5
      { reg := [], cwd := ["home"] }).1 (by decide),
    (exec_result_wellformed ["tmp"] 0 "s" ["echo", "hi"] "/workspace" 30 SpawnOutcome.timedOut 5
      { reg := [], cwd := ["home"] }).2.1 (by decide) rfl,
    (exec_result_wellformed ["tmp"] 0 "s" ["definitely-not-a-real-binary"] "/workspace" 30
      SpawnOutcome.notFound 5 { reg := [], cwd := ["home"] }).2.2 (by decide) rfl⟩

/-- C10: whatever the outcome — validation rejection (returns before any
directory change), normal completion, timeout, missing executable or
other spawn failure (the `finally` block restores the directory) — the
calling process's working directory after `exec` equals the one before
it. -/
theorem exec_preserves_cwd (baseDir : SPath) (now : Nat) (sid : String)
    (cmd : List String) (workdir : String) (tmo : Nat) (outcome : SpawnOutcome)
    (wallMs : Nat) (st : ExecState) :
    (execBackend baseDir now sid cmd workdir tmo outcome wallMs st).state.cwd = st.cwd := by
  unfold execBackend
  split <;> split <;> rfl

/-- C5 counterexample: a crafted archive with the two regular-file
members `a` and `a/b` raises `FileExistsError` part-way through
unpacking (creating the parent directory of `a/b` hits the already
extracted regular file `a`), so unpacking a crafted archive can throw
even though every member is accepted. -/
theorem extract_tar_claim_counterexample :
    (extractTar (createTar [("a", [0]), ("a/b", [1])]) ["tmp", "d"] none false
        (emptyFS ["tmp", "d"])).error = some "FileExistsError" ∧
      (extractTar (createTar [("a", [0]), ("a/b", [1])]) ["tmp", "d"] none false
        (emptyFS ["tmp", "d"])).count = 1 := by
  refine ⟨by decide, by decide⟩

/-- C5 (amended): during unpacking without the allow-absolute override
(its default), every file present afterwards was present before or lies
under the destination root — zero files are written outside it, whatever
the archive; every member whose name starts with an absolute-path marker
or contains a `..` segment (after normalising both slash styles) is
rejected and skipped, changing nothing and raising nothing; and the
classic crafted archive (`../../etc/passwd` plus an absolute member
name) unpacks into an empty destination with zero files written and no
exception.  An archive whose *accepted* members collide on the
filesystem (e.g. a file member that is a directory prefix of another)
can still raise. -/
theorem extract_tar_safety :
    (∀ (archive : List TarMember) (dest : SPath) (sb : Option SPath) (fs : FileSystem)
        (a : SPath × List Nat),
        a ∈ (extractTar archive dest sb false fs).fs.files →
          a ∈ fs.files ∨ dest <+: a.1) ∧
      (∀ (dest : SPath) (sb : Option SPath) (fs : FileSystem) (m : TarMember),
        pyIsAbs m.name = true ∨ hasDotDotSegment m.name = true →
          extractStep dest sb false fs m = (fs, false, none)) ∧
      (∀ (dest : SPath) (sb : Option SPath),
        (extractTar
            [{ name := "../../etc/passwd", mtype := MemberType.file, content := [7] },
             { name := "/etc/passwd", mtype := MemberType.file, content := [8] }]
            dest sb false (emptyFS dest)).error = none ∧
          (extractTar
            [{ name := "../../etc/passwd", mtype := MemberType.file, content := [7] },
             { name := "/etc/passwd", mtype := MemberType.file, content := [8] }]
            dest sb false (emptyFS dest)).count = 0 ∧
          (extractTar
            [{ name := "../../etc/passwd", mtype := MemberType.file, content := [7] },
             { name := "/etc/passwd", mtype := MemberType.file, content := [8] }]
            dest sb false (emptyFS dest)).fs.files = []) := by
  refine ⟨?_, ?_, ?_⟩
  · intro archive dest sb fs a ha
    unfold extractTar at ha
    rcases hmk : mkdirParents fs dest with e | fs0
    · rw [hmk] at ha
      exact Or.inl ha
    · rw [hmk] at ha
      dsimp only at ha
      rcases extractRun_files archive fs0 0 a ha with h | h
      · exact Or.inl ((mkdirParents_ok_files hmk) ▸ h)
      · exact Or.inr h
  · intro dest sb fs m h
    exact extractStep_skip_bad sb fs h
  · intro dest sb
    have hmk : mkdirParents (emptyFS dest) dest
        = Except.ok { emptyFS dest with dirs := (emptyFS dest).dirs ++ pathPrefixes dest } :=
      mkdirParents_ok_of_no_file (fun q _ => rfl)
    unfold extractTar
    rw [hmk]
    dsimp only
    rw [extractRun_all_bad sb ?bad]
    · exact ⟨rfl, rfl, rfl⟩
    case bad =>
      intro m hm
      rcases List.mem_cons.mp hm with h | h
      · rw [h]
        exact Or.inr (by decide)
      · rcases List.mem_cons.mp h with h | h
        · rw [h]
          exact Or.inl (by decide)
        · simp at h

/-- C5 witness: a member with an absolute name is skipped unchanged, and
the crafted traversal archive extracts zero files with no exception into
a concrete destination. -/
theorem extract_tar_safety_witness :
    extractStep ["tmp", "d"] none false (emptyFS ["tmp", "d"])
        { name := "/etc/passwd", mtype := MemberType.file, content := [8] }
      = (emptyFS ["tmp", "d"], false, none) ∧
      (extractTar
          [{ name := "../../etc/passwd", mtype := MemberType.file, content := [7] },
           { name := "/etc/passwd", mtype := MemberType.file, content := [8] }]
          ["tmp", "d"] none false (emptyFS ["tmp", "d"])).count = 0 :=
  ⟨extract_tar_safety.2.1 ["tmp", "d"] none (emptyFS ["tmp", "d"])
      { name := "/etc/passwd", mtype := MemberType.file, content := [8] }
      (Or.inl (by decide)),
    (extract_tar_safety.2.2 ["tmp", "d"] none).2.1⟩

/-- C8 counterexample: the mapping `{"a": [0], "./a": [1]}` has two
valid relative names (no `..` segment, not absolute), yet packing and
unpacking it into an empty destination yields a single file (the two
names collide after normalisation, the later entry winning) while the
reported count is still 2 — not "exactly the files of the mapping". -/
theorem tar_roundtrip_claim_counterexample :
    (extractTar (createTar [("a", [0]), ("./a", [1])]) ["tmp", "d"] none false
        (emptyFS ["tmp", "d"])).error = none ∧
      (extractTar (createTar [("a", [0]), ("./a", [1])]) ["tmp", "d"] none false
        (emptyFS ["tmp", "d"])).count = 2 ∧
      (extractTar (createTar [("a", [0]), ("./a", [1])]) ["tmp", "d"] none false
        (emptyFS ["tmp", "d"])).fs.files = [(["tmp", "d", "a"], [1])] := by
  refine ⟨by decide, by decide, by decide⟩

/-- C8 (amended): for every mapping whose names are in canonical
relative form (every slash-split piece a non-empty segment other than
`.` and `..`, not absolute, no `..` under either slash style) and
pairwise prefix-free (no name's segment list a prefix of another's — in
particular all names distinct and no name naming a directory of
another), packing and unpacking into an empty destination directory
raises nothing, returns the number of entries, and produces exactly the
mapping's files at their names' paths with byte-identical content. -/
theorem tar_roundtrip (files : List (String × List Nat)) (dest : SPath)
    (hdest : CleanPath dest)
    (hnames : ∀ e ∈ files, canonicalName e.1 = true)
    (hfree : List.Pairwise NonPrefix files) :
    (extractTar (createTar files) dest none false (emptyFS dest)).error = none ∧
      (extractTar (createTar files) dest none false (emptyFS dest)).count = files.length ∧
      (extractTar (createTar files) dest none false (emptyFS dest)).fs.files
        = files.map (fun e => (dest ++ joinSegs e.1, e.2)) := by
  have hmk : mkdirParents (emptyFS dest) dest
      = Except.ok { emptyFS dest with dirs := (emptyFS dest).dirs ++ pathPrefixes dest } :=
    mkdirParents_ok_of_no_file (fun q _ => rfl)
  obtain ⟨dirs', hrun⟩ := extractRun_roundtrip hdest files []
    { emptyFS dest with dirs := (emptyFS dest).dirs ++ pathPrefixes dest }
    (by simpa using hnames) (by simpa using hfree) rfl
    (fun d hd => Or.inl (by
      rcases List.mem_append.mp hd with h | h
      · exact mem_pathPrefixes.mp h
      · exact mem_pathPrefixes.mp h))
  unfold extractTar
  rw [hmk]
  dsimp only
  rw [show ([] : List (String × List Nat)).length = 0 from rfl] at hrun
  rw [hrun]
  simp

/-- C8 witness: a concrete two-file mapping round-trips exactly. -/
theorem tar_roundtrip_witness :
    (extractTar (createTar [("a/b.txt", [1, 2]), ("c.txt", [3])]) ["tmp", "d"] none false
        (emptyFS ["tmp", "d"])).error = none ∧
      (extractTar (createTar [("a/b.txt", [1, 2]), ("c.txt", [3])]) ["tmp", "d"] none false
        (emptyFS ["tmp", "d"])).count = 2 ∧
      (extractTar (createTar [("a/b.txt", [1, 2]), ("c.txt", [3])]) ["tmp", "d"] none false
        (emptyFS ["tmp", "d"])).fs.files
        = [(["tmp", "d", "a", "b.txt"], [1, 2]), (["tmp", "d", "c.txt"], [3])] := by
  have h := tar_roundtrip [("a/b.txt", [1, 2]), ("c.txt", [3])] ["tmp", "d"]
    (by
      intro s hs
      unfold CleanSeg
      rcases List.mem_cons.mp hs with rfl | hs
      · decide
      · rcases List.mem_cons.mp hs with rfl | hs
        · decide
        · simp at hs)
    (by decide)
    (by
      constructor
      · intro b hb
        rcases List.mem_singleton.mp hb with rfl
        exact ⟨by decide, by decide⟩
      · exact List.pairwise_singleton _ _)
  exact ⟨h.1, h.2.1, h.2.2.trans (by decide)⟩

/-- C6 counterexample: the segment `" .."` (space, dot, dot) contains a
non-dot character, yet `sanitize` rejects it and returns the workspace
root instead of keeping it verbatim, because the rejection test strips
whitespace after deleting the dots. -/
theorem sanitize_segment_claim_counterexample :
    ((" ..".toList.any (fun c => c ≠ '.')) = true) ∧
      sanitize " .." ["sb"] "workspace" = ["sb", "workspace"] ∧
      (["sb", "workspace"] : SPath) ≠ ["sb", "workspace", " .."] := by
  refine ⟨by decide, by decide, by decide⟩

end Noxrunner
